import Mathlib

/-!
Verification development for the skNoiseDeformer Maya plugin (C++ sources
skNoiseDeformer.cpp and skNoiseDeformerMT.cpp).

We give a shallow embedding of the deformer core over exact rational
arithmetic: Maya's `MMatrix` becomes a 4x4 rational matrix, `MPoint` a
homogeneous 4-component point, and the two deform entry points
(`SkNoiseDeformer::deform` and `SkNoiseDeformerMT::deform` together with
`threadTask` and `createTasksAndExecute`) become pure functions over a
position buffer modelled as a function from indices to points with an
explicit length.  The per-vertex weight lookup `weightValue` is modelled
as a function from indices to rationals.  Host data-handle fetches are
assumed to succeed (they are Maya-runtime glue), so the success/failure
status returned by `deform` reflects only the deformer's own control flow.

The Simplex noise kernel `noise3` lives in `libnoise/_simplex.c`
(third-party code, not part of this repository's sources) and is
abstracted as a function parameter throughout; the fBm accumulator
`fbm_noise3` from the same file is modelled from the spec.
-/

/-- The constant `EPSILON = 0.0000001` shared by both variants
(skNoiseDeformer.cpp line 119, skNoiseDeformerMT.cpp line 253). -/
def EPSILON : ℚ := 1 / 10000000

/-- Maya's `MStatus`, restricted to the two codes the deformer code returns
(`MS::kSuccess` on the normal paths, `MS::kFailure` from `CHECK_ERROR`). -/
inductive MStatus where
  | kSuccess : MStatus
  | kFailure : MStatus
deriving DecidableEq

/-- Maya's `MMatrix`: a 4x4 matrix of doubles, modelled with rational
entries; points multiply it as row vectors. -/
abbrev Mat4 := Matrix (Fin 4) (Fin 4) ℚ

/-- Maya's `MMatrix::inverse`.  Maya computes the matrix inverse without
reporting errors; we model it totally as adjugate over determinant, which
agrees with the true inverse whenever the determinant is nonzero (for a
singular input Maya's result is undocumented garbage; here the rational
convention `0⁻¹ = 0` makes it the zero matrix). -/
def Mat4.inverse (a : Mat4) : Mat4 := (a.det)⁻¹ • a.adjugate

/-- Maya's `MPoint`: a homogeneous point `(x, y, z, w)`; deformer input
positions arrive with `w = 1`. -/
structure MPoint where
  x : ℚ
  y : ℚ
  z : ℚ
  w : ℚ
deriving DecidableEq

/-- `MPoint::operator*=(const MMatrix&)`: multiply the point, as a row
4-vector, by the matrix. -/
def MPoint.mulMat (p : MPoint) (m : Mat4) : MPoint :=
  ⟨p.x * m 0 0 + p.y * m 1 0 + p.z * m 2 0 + p.w * m 3 0,
   p.x * m 0 1 + p.y * m 1 1 + p.z * m 2 1 + p.w * m 3 1,
   p.x * m 0 2 + p.y * m 1 2 + p.z * m 2 2 + p.w * m 3 2,
   p.x * m 0 3 + p.y * m 1 3 + p.z * m 2 3 + p.w * m 3 3⟩

/-- The noise attribute values read from the data block at the start of
both `deform` implementations: `amplitude`, `frequency` and `offset` as
three floats each, `octaves` (attribute minimum 1, hence a natural
number), `lacunarity` and `persistence`. -/
structure NoiseParams where
  amp0 : ℚ
  amp1 : ℚ
  amp2 : ℚ
  freq0 : ℚ
  freq1 : ℚ
  freq2 : ℚ
  off0 : ℚ
  off1 : ℚ
  off2 : ℚ
  octaves : ℕ
  lacunarity : ℚ
  persistence : ℚ

/-- Modelled from the spec: the accumulation loop of `fbm_noise3` from
`libnoise/_simplex.c` (included by both variants at skNoiseDeformer.cpp
line 103 and skNoiseDeformerMT.cpp line 230, but whose source file is not
among this repository's sources).  Per the spec, the loop accumulates
`sum += noise3(x*freq, y*freq, z*freq) * amp` for `octaves` iterations,
with `freq` starting at 1 and multiplied by `lacunarity` each iteration
and `amp` starting at 1 and multiplied by `persistence` each iteration;
the raw unnormalized sum is returned.  The Simplex kernel `noise3` is
abstracted as the function parameter. -/
def fbmAux (noise3 : ℚ → ℚ → ℚ → ℚ) (x y z persistence lacunarity : ℚ) :
    ℕ → ℚ → ℚ → ℚ
  | 0, _, _ => 0
  | n + 1, freq, amp =>
      noise3 (x * freq) (y * freq) (z * freq) * amp +
        fbmAux noise3 x y z persistence lacunarity n (freq * lacunarity)
          (amp * persistence)

/-- Modelled from the spec: `fbm_noise3(x, y, z, octaves, persistence,
lacunarity)` starts the accumulation of `fbmAux` with `freq = 1` and
`amp = 1`. -/
def fbm_noise3 (noise3 : ℚ → ℚ → ℚ → ℚ) (x y z : ℚ) (octaves : ℕ)
    (persistence lacunarity : ℚ) : ℚ :=
  fbmAux noise3 x y z persistence lacunarity octaves 1 1

/-- The matrix `localToLocatorSpaceMat` computed by
`SkNoiseDeformer::deform` (skNoiseDeformer.cpp line 176):
`localToWorldMat * locatorWorldSpaceMat.inverse()`. -/
def stLocalToLocatorSpaceMat (localToWorldMat locatorWorldSpaceMat : Mat4) :
    Mat4 :=
  localToWorldMat * Mat4.inverse locatorWorldSpaceMat

/-- The matrix `locatorToLocalSpaceMat` computed by
`SkNoiseDeformer::deform` (skNoiseDeformer.cpp line 177):
`locatorWorldSpaceMat * localToWorldMat.inverse()`. -/
def stLocatorToLocalSpaceMat (localToWorldMat locatorWorldSpaceMat : Mat4) :
    Mat4 :=
  locatorWorldSpaceMat * Mat4.inverse localToWorldMat

/-- The matrix `localToLocatorSpaceMat` computed by
`SkNoiseDeformerMT::deform` (skNoiseDeformerMT.cpp line 439). -/
def mtLocalToLocatorSpaceMat (localToWorldMat locatorWorldSpaceMat : Mat4) :
    Mat4 :=
  localToWorldMat * Mat4.inverse locatorWorldSpaceMat

/-- The matrix `locatorToLocalSpaceMat` computed by
`SkNoiseDeformerMT::deform` (skNoiseDeformerMT.cpp line 440). -/
def mtLocatorToLocalSpaceMat (localToWorldMat locatorWorldSpaceMat : Mat4) :
    Mat4 :=
  locatorWorldSpaceMat * Mat4.inverse localToWorldMat

/-- Modelled from the spec: `toNoiseSpace = localToWorld *
inverse(referenceWorld)`, the spec's formula for the noise-space
transform (spec section 4.5). -/
def toNoiseSpaceSpec (localToWorld referenceWorld : Mat4) : Mat4 :=
  localToWorld * Mat4.inverse referenceWorld

/-- Modelled from the spec: `fromNoiseSpace = referenceWorld *
inverse(localToWorld)` (spec section 4.5). -/
def fromNoiseSpaceSpec (localToWorld referenceWorld : Mat4) : Mat4 :=
  referenceWorld * Mat4.inverse localToWorld

/-- The body of the vertex loop of `SkNoiseDeformer::deform`
(skNoiseDeformer.cpp lines 193-212) for one vertex that passed the weight
check: transform the position into locator space, compute the noise
inputs `freqs[i] * pos[i] - offsets[i]`, displace each axis by
`amps[i] * fbm_noise3(...) * envTimesWeight` using the three fixed
decorrelation offsets `(0,0,0)`, `(123,456,789)`, `(234,567,890)`, and
transform back to local space. -/
def stDisplace (noise3 : ℚ → ℚ → ℚ → ℚ) (prm : NoiseParams)
    (localToLocatorSpaceMat locatorToLocalSpaceMat : Mat4)
    (envTimesWeight : ℚ) (p : MPoint) : MPoint :=
  let pos := p.mulMat localToLocatorSpaceMat
  let n0 := prm.freq0 * pos.x - prm.off0
  let n1 := prm.freq1 * pos.y - prm.off1
  let n2 := prm.freq2 * pos.z - prm.off2
  let pos2 : MPoint :=
    ⟨pos.x + prm.amp0 *
        fbm_noise3 noise3 n0 n1 n2 prm.octaves prm.persistence prm.lacunarity *
        envTimesWeight,
     pos.y + prm.amp1 *
        fbm_noise3 noise3 (n0 + 123) (n1 + 456) (n2 + 789) prm.octaves
          prm.persistence prm.lacunarity * envTimesWeight,
     pos.z + prm.amp2 *
        fbm_noise3 noise3 (n0 + 234) (n1 + 567) (n2 + 890) prm.octaves
          prm.persistence prm.lacunarity * envTimesWeight,
     pos.w⟩
  pos2.mulMat locatorToLocalSpaceMat

/-- The body of the vertex loop of `threadTask`
(skNoiseDeformerMT.cpp lines 339-355), textually the same pipeline as the
single-threaded loop body: locator-space transform, noise inputs,
per-axis fBm displacement scaled by `sharedEnv * sharedWeights[i]`, and
the transform back to local space. -/
def mtDisplace (noise3 : ℚ → ℚ → ℚ → ℚ) (prm : NoiseParams)
    (localToLocatorSpaceMat locatorToLocalSpaceMat : Mat4)
    (envTimesWeight : ℚ) (p : MPoint) : MPoint :=
  let pos := p.mulMat localToLocatorSpaceMat
  let n0 := prm.freq0 * pos.x - prm.off0
  let n1 := prm.freq1 * pos.y - prm.off1
  let n2 := prm.freq2 * pos.z - prm.off2
  let pos2 : MPoint :=
    ⟨pos.x + prm.amp0 *
        fbm_noise3 noise3 n0 n1 n2 prm.octaves prm.persistence prm.lacunarity *
        envTimesWeight,
     pos.y + prm.amp1 *
        fbm_noise3 noise3 (n0 + 123) (n1 + 456) (n2 + 789) prm.octaves
          prm.persistence prm.lacunarity * envTimesWeight,
     pos.z + prm.amp2 *
        fbm_noise3 noise3 (n0 + 234) (n1 + 567) (n2 + 890) prm.octaves
          prm.persistence prm.lacunarity * envTimesWeight,
     pos.w⟩
  pos2.mulMat locatorToLocalSpaceMat

/-- The vertex loop of `SkNoiseDeformer::deform` (skNoiseDeformer.cpp
lines 184-213): visit positions in index order starting at `i`; `fuel`
counts the remaining vertices.  A vertex whose weight satisfies
`EPSILON >= weight` is skipped (`continue`), otherwise its position is
overwritten in place with the displaced position. -/
def stLoop (noise3 : ℚ → ℚ → ℚ → ℚ) (prm : NoiseParams) (a b : Mat4)
    (env : ℚ) (weights : ℕ → ℚ) :
    ℕ → ℕ → (ℕ → MPoint) → (ℕ → MPoint)
  | 0, _, pts => pts
  | fuel + 1, i, pts =>
      if weights i ≤ EPSILON then
        stLoop noise3 prm a b env weights fuel (i + 1) pts
      else
        stLoop noise3 prm a b env weights fuel (i + 1)
          (Function.update pts i (stDisplace noise3 prm a b (env * weights i) (pts i)))

/-- `SkNoiseDeformer::deform` (skNoiseDeformer.cpp lines 130-216): return
success immediately when `EPSILON >= env`; otherwise compute the two
transform matrices and run the vertex loop over all `numPoints`
positions.  Attribute fetches are assumed to succeed, so the returned
status is `kSuccess` on every path the deformer itself controls. -/
def stDeform (noise3 : ℚ → ℚ → ℚ → ℚ) (prm : NoiseParams) (env : ℚ)
    (localToWorldMat locatorWorldSpaceMat : Mat4)
    (numPoints : ℕ) (pts : ℕ → MPoint) (weights : ℕ → ℚ) :
    MStatus × (ℕ → MPoint) :=
  if EPSILON ≥ env then (MStatus.kSuccess, pts)
  else
    (MStatus.kSuccess,
      stLoop noise3 prm
        (stLocalToLocatorSpaceMat localToWorldMat locatorWorldSpaceMat)
        (stLocatorToLocalSpaceMat localToWorldMat locatorWorldSpaceMat)
        env weights numPoints 0 pts)

/-- The task width `sharedData.width` computed by `SkNoiseDeformerMT::deform`
(skNoiseDeformerMT.cpp line 463):
`ceil((end - start + 1.0) / numTasks)` with `start = 0` and
`end = numPoints - 1`, i.e. the ceiling of `numPoints / numTasks`,
expressed on naturals. -/
def taskWidth (numPoints numTasks : ℕ) : ℕ :=
  (numPoints + numTasks - 1) / numTasks

/-- The first index `threadStartId` of task `id`
(skNoiseDeformerMT.cpp line 329): `sharedStart + id * sharedWidth` with
`sharedStart = 0`. -/
def threadStartId (numPoints numTasks id : ℕ) : ℕ :=
  id * taskWidth numPoints numTasks

/-- The set of indices iterated by task `id` of `threadTask`
(skNoiseDeformerMT.cpp line 337): the loop runs
`for (i = threadStartId; i < threadEndId && i <= sharedEnd; ++i)` with
`threadEndId = threadStartId + sharedWidth` and `sharedEnd =
numPoints - 1`. -/
def taskOwns (numPoints numTasks id i : ℕ) : Prop :=
  threadStartId numPoints numTasks id ≤ i ∧
    i < threadStartId numPoints numTasks id + taskWidth numPoints numTasks ∧
    i < numPoints

instance (numPoints numTasks id i : ℕ) :
    Decidable (taskOwns numPoints numTasks id i) := by
  unfold taskOwns threadStartId taskWidth
  infer_instance

/-- The vertex loop of `threadTask` (skNoiseDeformerMT.cpp lines 307-359):
starting at `i = threadStartId`, run while `i < threadEndId` (encoded by
`fuel`, which starts at `sharedWidth`) and `i <= sharedEnd` (encoded by
`i < n`); each visited position is overwritten in place with the
displaced position.  There is no per-vertex weight check in this loop. -/
def threadTask (noise3 : ℚ → ℚ → ℚ → ℚ) (prm : NoiseParams) (a b : Mat4)
    (env : ℚ) (weights : ℕ → ℚ) :
    ℕ → ℕ → ℕ → (ℕ → MPoint) → (ℕ → MPoint)
  | 0, _, _, pts => pts
  | fuel + 1, i, n, pts =>
      if i < n then
        threadTask noise3 prm a b env weights fuel (i + 1) n
          (Function.update pts i (mtDisplace noise3 prm a b (env * weights i) (pts i)))
      else pts

/-- `createTasksAndExecute` (skNoiseDeformerMT.cpp lines 362-386): tasks
`id = 0 .. numTasks-1` each run `threadTask` on their own index range.
The ranges are disjoint (proved below), so running the tasks sequentially
in `id` order models the parallel execution faithfully. -/
def runTasks (noise3 : ℚ → ℚ → ℚ → ℚ) (prm : NoiseParams) (a b : Mat4)
    (env : ℚ) (weights : ℕ → ℚ) (width n : ℕ) :
    ℕ → (ℕ → MPoint) → (ℕ → MPoint)
  | 0, pts => pts
  | k + 1, pts =>
      threadTask noise3 prm a b env weights width (k * width) n
        (runTasks noise3 prm a b env weights width n k pts)

/-- `SkNoiseDeformerMT::deform` (skNoiseDeformerMT.cpp lines 389-481):
return success immediately when `EPSILON >= env`; otherwise compute the
two transform matrices, read all positions and weights, compute the task
width, and hand off to `createTasksAndExecute`; the resulting positions
are written back.  No per-vertex weight check is performed anywhere on
this path. -/
def mtDeform (noise3 : ℚ → ℚ → ℚ → ℚ) (prm : NoiseParams) (env : ℚ)
    (numTasks : ℕ) (localToWorldMat locatorWorldSpaceMat : Mat4)
    (numPoints : ℕ) (pts : ℕ → MPoint) (weights : ℕ → ℚ) :
    MStatus × (ℕ → MPoint) :=
  if EPSILON ≥ env then (MStatus.kSuccess, pts)
  else
    (MStatus.kSuccess,
      runTasks noise3 prm
        (mtLocalToLocatorSpaceMat localToWorldMat locatorWorldSpaceMat)
        (mtLocatorToLocalSpaceMat localToWorldMat locatorWorldSpaceMat)
        env weights (taskWidth numPoints numTasks) numPoints numTasks pts)

/-- The attribute default values set up in `initialize()` (both variants):
`amplitude = (1,1,1)`, `frequency = (1,1,1)`, `offset = (0,0,0)`,
`octaves = 1`, `lacunarity = 2.0`, `persistence = 0.5`. -/
def defaultParams : NoiseParams :=
  ⟨1, 1, 1, 1, 1, 1, 0, 0, 0, 1, 2, 1 / 2⟩

/-! ### General helper lemmas -/

theorem Mat4.mul_inverse (a : Mat4) (h : a.det ≠ 0) : a * Mat4.inverse a = 1 := by
  unfold Mat4.inverse
  rw [Matrix.mul_smul, Matrix.mul_adjugate, smul_smul, inv_mul_cancel₀ h, one_smul]

theorem Mat4.inverse_mul (a : Mat4) (h : a.det ≠ 0) : Mat4.inverse a * a = 1 := by
  unfold Mat4.inverse
  rw [Matrix.smul_mul, Matrix.adjugate_mul, smul_smul, inv_mul_cancel₀ h, one_smul]

theorem MPoint.mulMat_one (p : MPoint) : p.mulMat 1 = p := by
  simp [MPoint.mulMat, Matrix.one_apply]

theorem MPoint.mulMat_mulMat (p : MPoint) (a b : Mat4) :
    (p.mulMat a).mulMat b = p.mulMat (a * b) := by
  simp only [MPoint.mulMat, Matrix.mul_apply, Fin.sum_univ_four, MPoint.mk.injEq]
  refine ⟨by ring, by ring, by ring, by ring⟩

theorem le_mul_taskWidth (n t : ℕ) (ht : 0 < t) : n ≤ t * taskWidth n t := by
  unfold taskWidth
  have h1 := Nat.div_add_mod (n + t - 1) t
  have h2 : (n + t - 1) % t < t := Nat.mod_lt _ ht
  generalize hX : t * ((n + t - 1) / t) = X at *
  omega

theorem taskWidth_pos (n t : ℕ) (ht : 0 < t) (hn : 0 < n) : 0 < taskWidth n t := by
  unfold taskWidth
  have := (Nat.one_le_div_iff ht).mpr (show t ≤ n + t - 1 by omega)
  omega

theorem lt_div_succ_mul (i w : ℕ) (hw : 0 < w) : i < (i / w + 1) * w := by
  have h1 := Nat.div_add_mod i w
  have h2 : i % w < w := Nat.mod_lt _ hw
  have h3 : (i / w + 1) * w = w * (i / w) + w := by ring
  generalize hX : w * (i / w) = X at *
  omega

/-! ### Pointwise characterization of the vertex loops -/

theorem stLoop_apply (noise3 : ℚ → ℚ → ℚ → ℚ) (prm : NoiseParams) (a b : Mat4)
    (env : ℚ) (weights : ℕ → ℚ) :
    ∀ (fuel i : ℕ) (pts : ℕ → MPoint) (j : ℕ),
      stLoop noise3 prm a b env weights fuel i pts j =
        if i ≤ j ∧ j < i + fuel ∧ EPSILON < weights j then
          stDisplace noise3 prm a b (env * weights j) (pts j)
        else pts j
  | 0, i, pts, j => by
      rw [stLoop]
      have : ¬ (i ≤ j ∧ j < i + 0 ∧ EPSILON < weights j) := by omega
      rw [if_neg this]
  | fuel + 1, i, pts, j => by
      rw [stLoop]
      by_cases hw : weights i ≤ EPSILON
      · rw [if_pos hw, stLoop_apply noise3 prm a b env weights fuel (i + 1) pts j]
        by_cases hji : j = i
        · subst hji
          have h1 : ¬ (j + 1 ≤ j ∧ j < j + 1 + fuel ∧ EPSILON < weights j) := by
            omega
          have h2 : ¬ (j ≤ j ∧ j < j + (fuel + 1) ∧ EPSILON < weights j) := by
            intro h
            exact absurd h.2.2 (not_lt.mpr hw)
          rw [if_neg h1, if_neg h2]
        · have : (i + 1 ≤ j ∧ j < i + 1 + fuel ∧ EPSILON < weights j) ↔
              (i ≤ j ∧ j < i + (fuel + 1) ∧ EPSILON < weights j) := by
            constructor
            · rintro ⟨u, v, c⟩; exact ⟨by omega, by omega, c⟩
            · rintro ⟨u, v, c⟩; exact ⟨by omega, by omega, c⟩
          rw [if_congr this rfl rfl]
      · rw [if_neg hw, stLoop_apply noise3 prm a b env weights fuel (i + 1) _ j]
        by_cases hji : j = i
        · subst hji
          have h1 : ¬ (j + 1 ≤ j ∧ j < j + 1 + fuel ∧ EPSILON < weights j) := by
            omega
          have h2 : (j ≤ j ∧ j < j + (fuel + 1) ∧ EPSILON < weights j) :=
            ⟨le_refl j, by omega, lt_of_not_le hw⟩
          rw [if_neg h1, if_pos h2, Function.update_same]
        · rw [Function.update_noteq hji]
          have : (i + 1 ≤ j ∧ j < i + 1 + fuel ∧ EPSILON < weights j) ↔
              (i ≤ j ∧ j < i + (fuel + 1) ∧ EPSILON < weights j) := by
            constructor
            · rintro ⟨u, v, c⟩; exact ⟨by omega, by omega, c⟩
            · rintro ⟨u, v, c⟩; exact ⟨by omega, by omega, c⟩
          rw [if_congr this rfl rfl]

theorem threadTask_apply (noise3 : ℚ → ℚ → ℚ → ℚ) (prm : NoiseParams)
    (a b : Mat4) (env : ℚ) (weights : ℕ → ℚ) :
    ∀ (fuel i n : ℕ) (pts : ℕ → MPoint) (j : ℕ),
      threadTask noise3 prm a b env weights fuel i n pts j =
        if i ≤ j ∧ j < i + fuel ∧ j < n then
          mtDisplace noise3 prm a b (env * weights j) (pts j)
        else pts j
  | 0, i, n, pts, j => by
      rw [threadTask]
      have : ¬ (i ≤ j ∧ j < i + 0 ∧ j < n) := by omega
      rw [if_neg this]
  | fuel + 1, i, n, pts, j => by
      rw [threadTask]
      by_cases hin : i < n
      · rw [if_pos hin, threadTask_apply noise3 prm a b env weights fuel (i + 1) n _ j]
        by_cases hji : j = i
        · subst hji
          have h1 : ¬ (j + 1 ≤ j ∧ j < j + 1 + fuel ∧ j < n) := by omega
          have h2 : (j ≤ j ∧ j < j + (fuel + 1) ∧ j < n) := by omega
          rw [if_neg h1, if_pos h2, Function.update_same]
        · rw [Function.update_noteq hji]
          have : (i + 1 ≤ j ∧ j < i + 1 + fuel ∧ j < n) ↔
              (i ≤ j ∧ j < i + (fuel + 1) ∧ j < n) := by omega
          rw [if_congr this rfl rfl]
      · have h2 : ¬ (i ≤ j ∧ j < i + (fuel + 1) ∧ j < n) := by omega
        rw [if_neg hin, if_neg h2]

theorem runTasks_apply (noise3 : ℚ → ℚ → ℚ → ℚ) (prm : NoiseParams)
    (a b : Mat4) (env : ℚ) (weights : ℕ → ℚ) (width n : ℕ) :
    ∀ (k : ℕ) (pts : ℕ → MPoint) (j : ℕ),
      runTasks noise3 prm a b env weights width n k pts j =
        if j < k * width ∧ j < n then
          mtDisplace noise3 prm a b (env * weights j) (pts j)
        else pts j
  | 0, pts, j => by
      rw [runTasks]
      have : ¬ (j < 0 * width ∧ j < n) := by omega
      rw [if_neg this]
  | k + 1, pts, j => by
      rw [runTasks, threadTask_apply]
      have hsucc : (k + 1) * width = k * width + width := Nat.succ_mul k width
      by_cases hA : k * width ≤ j ∧ j < k * width + width ∧ j < n
      · rw [if_pos hA, runTasks_apply noise3 prm a b env weights width n k pts j,
            if_neg (show ¬ (j < k * width ∧ j < n) by omega),
            if_pos (show j < (k + 1) * width ∧ j < n by omega)]
      · rw [if_neg hA, runTasks_apply noise3 prm a b env weights width n k pts j]
        by_cases hB : j < k * width ∧ j < n
        · rw [if_pos hB, if_pos (show j < (k + 1) * width ∧ j < n by omega)]
        · rw [if_neg hB, if_neg (show ¬ (j < (k + 1) * width ∧ j < n) by omega)]

/-! ### fBm accumulator lemmas -/

theorem fbmAux_eq_sum (noise3 : ℚ → ℚ → ℚ → ℚ) (x y z pers lac : ℚ) :
    ∀ (oct : ℕ) (freq amp : ℚ),
      fbmAux noise3 x y z pers lac oct freq amp =
        ∑ k ∈ Finset.range oct,
          noise3 (x * (freq * lac ^ k)) (y * (freq * lac ^ k))
            (z * (freq * lac ^ k)) * (amp * pers ^ k)
  | 0, freq, amp => by simp [fbmAux]
  | oct + 1, freq, amp => by
      rw [fbmAux, fbmAux_eq_sum noise3 x y z pers lac oct (freq * lac) (amp * pers),
        Finset.sum_range_succ', add_comm]
      congr 1
      · apply Finset.sum_congr rfl
        intro k _
        have ha : freq * lac * lac ^ k = freq * lac ^ (k + 1) := by ring
        have hb : amp * pers * pers ^ k = amp * pers ^ (k + 1) := by ring
        rw [ha, hb]
      · simp

/-! ### Displacement kernel lemmas -/

theorem stDisplace_eq_mtDisplace (noise3 : ℚ → ℚ → ℚ → ℚ) (prm : NoiseParams)
    (a b : Mat4) (etw : ℚ) (p : MPoint) :
    stDisplace noise3 prm a b etw p = mtDisplace noise3 prm a b etw p := rfl

theorem mtDisplace_zero (noise3 : ℚ → ℚ → ℚ → ℚ) (prm : NoiseParams)
    (a b : Mat4) (hab : a * b = 1) (p : MPoint) :
    mtDisplace noise3 prm a b 0 p = p := by
  unfold mtDisplace
  simp only [mul_zero, add_zero]
  show (p.mulMat a).mulMat b = p
  rw [MPoint.mulMat_mulMat, hab, MPoint.mulMat_one]

/-! ### Deform-level characterizations -/

theorem stDeform_fst (noise3 : ℚ → ℚ → ℚ → ℚ) (prm : NoiseParams) (env : ℚ)
    (l2w locW : Mat4) (n : ℕ) (pts : ℕ → MPoint) (ws : ℕ → ℚ) :
    (stDeform noise3 prm env l2w locW n pts ws).1 = MStatus.kSuccess := by
  unfold stDeform
  split_ifs <;> rfl

theorem mtDeform_fst (noise3 : ℚ → ℚ → ℚ → ℚ) (prm : NoiseParams) (env : ℚ)
    (numTasks : ℕ) (l2w locW : Mat4) (n : ℕ) (pts : ℕ → MPoint) (ws : ℕ → ℚ) :
    (mtDeform noise3 prm env numTasks l2w locW n pts ws).1 = MStatus.kSuccess := by
  unfold mtDeform
  split_ifs <;> rfl

theorem stDeform_apply (noise3 : ℚ → ℚ → ℚ → ℚ) (prm : NoiseParams) (env : ℚ)
    (l2w locW : Mat4) (n : ℕ) (pts : ℕ → MPoint) (ws : ℕ → ℚ)
    (henv : EPSILON < env) (j : ℕ) :
    (stDeform noise3 prm env l2w locW n pts ws).2 j =
      if j < n ∧ EPSILON < ws j then
        stDisplace noise3 prm (stLocalToLocatorSpaceMat l2w locW)
          (stLocatorToLocalSpaceMat l2w locW) (env * ws j) (pts j)
      else pts j := by
  unfold stDeform
  rw [if_neg (not_le.mpr henv)]
  dsimp only
  rw [stLoop_apply]
  have : (0 ≤ j ∧ j < 0 + n ∧ EPSILON < ws j) ↔ (j < n ∧ EPSILON < ws j) := by
    constructor
    · rintro ⟨-, h1, h2⟩; exact ⟨by omega, h2⟩
    · rintro ⟨h1, h2⟩; exact ⟨Nat.zero_le j, by omega, h2⟩
  rw [if_congr this rfl rfl]

theorem mtDeform_apply (noise3 : ℚ → ℚ → ℚ → ℚ) (prm : NoiseParams) (env : ℚ)
    (numTasks : ℕ) (l2w locW : Mat4) (n : ℕ) (pts : ℕ → MPoint) (ws : ℕ → ℚ)
    (henv : EPSILON < env) (ht : 1 ≤ numTasks) (j : ℕ) :
    (mtDeform noise3 prm env numTasks l2w locW n pts ws).2 j =
      if j < n then
        mtDisplace noise3 prm (mtLocalToLocatorSpaceMat l2w locW)
          (mtLocatorToLocalSpaceMat l2w locW) (env * ws j) (pts j)
      else pts j := by
  unfold mtDeform
  rw [if_neg (not_le.mpr henv)]
  dsimp only
  rw [runTasks_apply]
  have hcov : n ≤ numTasks * taskWidth n numTasks := le_mul_taskWidth n numTasks ht
  have : (j < numTasks * taskWidth n numTasks ∧ j < n) ↔ j < n := by
    constructor
    · exact fun h => h.2
    · intro h; exact ⟨lt_of_lt_of_le h hcov, h⟩
  rw [if_congr this rfl rfl]

theorem Mat4.inverse_one : Mat4.inverse 1 = 1 := by
  unfold Mat4.inverse
  simp

theorem Mat4.inverse_zero : Mat4.inverse 0 = 0 := by
  unfold Mat4.inverse
  rw [Matrix.det_zero ⟨(0 : Fin 4)⟩, inv_zero, zero_smul]

theorem MPoint.mulMat_zero (p : MPoint) : (p.mulMat 0) = ⟨0, 0, 0, 0⟩ := by
  simp [MPoint.mulMat]

theorem frameMats_mul (l2w locW : Mat4) (hl : l2w.det ≠ 0)
    (hloc : locW.det ≠ 0) :
    mtLocalToLocatorSpaceMat l2w locW * mtLocatorToLocalSpaceMat l2w locW = 1 := by
  unfold mtLocalToLocatorSpaceMat mtLocatorToLocalSpaceMat
  rw [mul_assoc, ← mul_assoc (Mat4.inverse locW), Mat4.inverse_mul locW hloc,
    one_mul, Mat4.mul_inverse l2w hl]

/-! ### Claim theorems -/

/-- C10: in both variants, if the envelope value alone is at most 1e-7
(the code's check `EPSILON >= env` at skNoiseDeformer.cpp line 141 and
skNoiseDeformerMT.cpp line 400), deform returns the success status
immediately and the entire position buffer is exactly unchanged,
regardless of the per-vertex weights and all other parameters. -/
theorem C10_env_early_exit (noise3 : ℚ → ℚ → ℚ → ℚ) (prm : NoiseParams)
    (env : ℚ) (numTasks : ℕ) (l2w locW : Mat4) (n : ℕ) (pts : ℕ → MPoint)
    (ws : ℕ → ℚ) (henv : env ≤ EPSILON) :
    stDeform noise3 prm env l2w locW n pts ws = (MStatus.kSuccess, pts) ∧
      mtDeform noise3 prm env numTasks l2w locW n pts ws =
        (MStatus.kSuccess, pts) := by
  constructor
  · unfold stDeform
    rw [if_pos (show EPSILON ≥ env from henv)]
  · unfold mtDeform
    rw [if_pos (show EPSILON ≥ env from henv)]

/-- Witness for C10 at a concrete input: `env = 0` is at most `EPSILON`,
and both variants leave the buffer untouched and return success. -/
theorem C10_env_early_exit_witness :
    (0 : ℚ) ≤ EPSILON ∧
      (stDeform (fun _ _ _ => 0) defaultParams 0 1 1 1 (fun _ => ⟨1, 0, 0, 1⟩)
          (fun _ => 1) =
        (MStatus.kSuccess, fun _ => ⟨1, 0, 0, 1⟩) ∧
      mtDeform (fun _ _ _ => 0) defaultParams 0 16 1 1 1 (fun _ => ⟨1, 0, 0, 1⟩)
          (fun _ => 1) =
        (MStatus.kSuccess, fun _ => ⟨1, 0, 0, 1⟩)) :=
  ⟨by norm_num [EPSILON],
   C10_env_early_exit (fun _ _ _ => 0) defaultParams 0 16 1 1 1
     (fun _ => ⟨1, 0, 0, 1⟩) (fun _ => 1) (by norm_num [EPSILON])⟩

/-- C6: on every invocation both variants derive the same two frame
transforms, equal to the spec formulas `toNoiseSpace = localToWorld *
inverse(referenceWorld)` and `fromNoiseSpace = referenceWorld *
inverse(localToWorld)` (skNoiseDeformer.cpp lines 176-177 and
skNoiseDeformerMT.cpp lines 439-440); in this pure embedding the
matrices are functions of the current invocation's two input matrices,
so recomputation per invocation (no caching) is definitional. -/
theorem C6_frame_matrices (l2w locW : Mat4) :
    stLocalToLocatorSpaceMat l2w locW = toNoiseSpaceSpec l2w locW ∧
      mtLocalToLocatorSpaceMat l2w locW = toNoiseSpaceSpec l2w locW ∧
      stLocatorToLocalSpaceMat l2w locW = fromNoiseSpaceSpec l2w locW ∧
      mtLocatorToLocalSpaceMat l2w locW = fromNoiseSpaceSpec l2w locW :=
  ⟨rfl, rfl, rfl, rfl⟩

/-- C7 (amended): neither variant performs any singularity check on the
frame matrices: `deform` returns the success status for every input,
including singular matrices, and (as the counterexample shows) proceeds
to displace vertices using whatever matrix `Mat4.inverse` yields. -/
theorem C7_no_singular_failure (noise3 : ℚ → ℚ → ℚ → ℚ) (prm : NoiseParams)
    (env : ℚ) (numTasks : ℕ) (l2w locW : Mat4) (n : ℕ) (pts : ℕ → MPoint)
    (ws : ℕ → ℚ) :
    (stDeform noise3 prm env l2w locW n pts ws).1 = MStatus.kSuccess ∧
      (mtDeform noise3 prm env numTasks l2w locW n pts ws).1 =
        MStatus.kSuccess :=
  ⟨stDeform_fst noise3 prm env l2w locW n pts ws,
   mtDeform_fst noise3 prm env numTasks l2w locW n pts ws⟩

/-- Counterexample to C7 as stated: with a singular locator world matrix
(the zero matrix, determinant 0), the single-threaded deform does NOT
fail: it returns success and modifies the vertex position (here the
vertex `(1,0,0,1)` is moved), so the invocation silently proceeds with
the garbage inverse instead of reporting a fatal error and leaving the
positions unmodified. -/
theorem C7_counterexample :
    (0 : Mat4).det = 0 ∧
      (stDeform (fun _ _ _ => 1) defaultParams 1 1 0 1 (fun _ => ⟨1, 0, 0, 1⟩)
          (fun _ => 1)).1 = MStatus.kSuccess ∧
      (stDeform (fun _ _ _ => 1) defaultParams 1 1 0 1 (fun _ => ⟨1, 0, 0, 1⟩)
          (fun _ => 1)).2 0 ≠ ⟨1, 0, 0, 1⟩ := by
  refine ⟨Matrix.det_zero ⟨(0 : Fin 4)⟩, stDeform_fst _ _ _ _ _ _ _ _, ?_⟩
  rw [stDeform_apply _ _ _ _ _ _ _ _ (by norm_num [EPSILON]) 0,
    if_pos ⟨by norm_num, by norm_num [EPSILON]⟩]
  have ha : stLocalToLocatorSpaceMat 1 0 = 0 := by
    unfold stLocalToLocatorSpaceMat
    rw [Mat4.inverse_zero, mul_zero]
  have hb : stLocatorToLocalSpaceMat 1 0 = 0 := by
    unfold stLocatorToLocalSpaceMat
    rw [zero_mul]
  rw [ha, hb]
  simp [stDisplace, MPoint.mulMat_zero, MPoint.mk.injEq]

/-- C8: for every `octaves >= 1`, `fbm_noise3` equals the sum over
`k = 0 .. octaves-1` of `noise3(x*freq_k, y*freq_k, z*freq_k) * amp_k`
with `freq_k = lacunarity^k` and `amp_k = persistence^k` (the raw
unnormalized sum); in particular going from 1 octave to 2 adds the
second noise layer on top of the first rather than overwriting it. -/
theorem C8_fbm_octave_sum (noise3 : ℚ → ℚ → ℚ → ℚ) (x y z pers lac : ℚ)
    (oct : ℕ) (hoct : 1 ≤ oct) :
    fbm_noise3 noise3 x y z oct pers lac =
      ∑ k ∈ Finset.range oct,
        noise3 (x * lac ^ k) (y * lac ^ k) (z * lac ^ k) * pers ^ k ∧
    fbm_noise3 noise3 x y z 2 pers lac =
      fbm_noise3 noise3 x y z 1 pers lac +
        noise3 (x * lac) (y * lac) (z * lac) * pers := by
  constructor
  · rw [fbm_noise3, fbmAux_eq_sum]
    simp only [one_mul]
  · simp only [fbm_noise3, fbmAux, mul_one, one_mul, add_zero]

/-- Witness for C8 at a concrete input: two octaves of the kernel
`noise3(a,b,c) = a + b + c` at `(1,2,3)` with `persistence = 1/2` and
`lacunarity = 2`. -/
theorem C8_fbm_octave_sum_witness :
    (1 : ℕ) ≤ 2 ∧
      (fbm_noise3 (fun a b c => a + b + c) 1 2 3 2 (1 / 2) 2 =
        ∑ k ∈ Finset.range 2,
          ((1 : ℚ) * 2 ^ k + 2 * 2 ^ k + 3 * 2 ^ k) * (1 / 2) ^ k ∧
      fbm_noise3 (fun a b c => a + b + c) 1 2 3 2 (1 / 2) 2 =
        fbm_noise3 (fun a b c => a + b + c) 1 2 3 1 (1 / 2) 2 +
          ((1 : ℚ) * 2 + 2 * 2 + 3 * 2) * (1 / 2)) :=
  ⟨by norm_num,
   C8_fbm_octave_sum (fun a b c => a + b + c) 1 2 3 (1 / 2) 2 2 (by norm_num)⟩

/-- C9: `fbm_noise3` and both deform variants are deterministic pure
functions of their arguments: if the noise kernel returns identical
results on identical arguments across two invocations (as the fixed
baked-in tables of the C kernel guarantee), then the fBm values and the
entire output position buffers of repeated deform invocations are
identical. -/
theorem C9_determinism (noise3a noise3b : ℚ → ℚ → ℚ → ℚ)
    (h : ∀ a b c : ℚ, noise3a a b c = noise3b a b c)
    (prm : NoiseParams) (env : ℚ) (numTasks : ℕ) (l2w locW : Mat4) (n : ℕ)
    (pts : ℕ → MPoint) (ws : ℕ → ℚ) (x y z pers lac : ℚ) (oct : ℕ) :
    fbm_noise3 noise3a x y z oct pers lac =
        fbm_noise3 noise3b x y z oct pers lac ∧
      stDeform noise3a prm env l2w locW n pts ws =
        stDeform noise3b prm env l2w locW n pts ws ∧
      mtDeform noise3a prm env numTasks l2w locW n pts ws =
        mtDeform noise3b prm env numTasks l2w locW n pts ws := by
  have hn : noise3a = noise3b :=
    funext fun a => funext fun b => funext fun c => h a b c
  subst hn
  exact ⟨rfl, rfl, rfl⟩

/-- Witness for C9 at a concrete input: two invocations with the constant
zero kernel give identical fBm values and identical deform outputs. -/
theorem C9_determinism_witness :
    (∀ a b c : ℚ, (fun _ _ _ => (0 : ℚ)) a b c = (fun _ _ _ => (0 : ℚ)) a b c) ∧
      (fbm_noise3 (fun _ _ _ => 0) 1 2 3 2 (1 / 2) 2 =
          fbm_noise3 (fun _ _ _ => 0) 1 2 3 2 (1 / 2) 2 ∧
        stDeform (fun _ _ _ => 0) defaultParams 1 1 1 1
            (fun _ => ⟨1, 0, 0, 1⟩) (fun _ => 1) =
          stDeform (fun _ _ _ => 0) defaultParams 1 1 1 1
            (fun _ => ⟨1, 0, 0, 1⟩) (fun _ => 1) ∧
        mtDeform (fun _ _ _ => 0) defaultParams 1 16 1 1 1
            (fun _ => ⟨1, 0, 0, 1⟩) (fun _ => 1) =
          mtDeform (fun _ _ _ => 0) defaultParams 1 16 1 1 1
            (fun _ => ⟨1, 0, 0, 1⟩) (fun _ => 1)) :=
  ⟨fun _ _ _ => rfl,
   C9_determinism (fun _ _ _ => 0) (fun _ _ _ => 0) (fun _ _ _ => rfl)
     defaultParams 1 16 1 1 1 (fun _ => ⟨1, 0, 0, 1⟩) (fun _ => 1)
     1 2 3 (1 / 2) 2 2⟩

/-- C3: for every vertex count `n` and task count `t >= 1`, the task index
ranges of the multi-threaded dispatch (task `k` owning
`[k*width, k*width + width)` truncated to indices `< n`, with
`width = ceil(n / t)`) form an exact disjoint cover of `[0, n-1]`: every
index below `n` is owned by exactly one task; surplus tasks `k >= n`
own empty ranges; and `threadTask` leaves every index it does not own
untouched (a safe no-op on empty or out-of-range work). -/
theorem C3_partition (n t : ℕ) (ht : 1 ≤ t) :
    (∀ i, i < n → ∃! k, k < t ∧ taskOwns n t k i) ∧
      (∀ k, n ≤ k → ∀ i, ¬ taskOwns n t k i) ∧
      (∀ (noise3 : ℚ → ℚ → ℚ → ℚ) (prm : NoiseParams) (a b : Mat4) (env : ℚ)
        (ws : ℕ → ℚ) (k : ℕ) (pts : ℕ → MPoint) (i : ℕ),
        ¬ taskOwns n t k i →
          threadTask noise3 prm a b env ws (taskWidth n t)
            (threadStartId n t k) n pts i = pts i) := by
  refine ⟨?_, ?_, ?_⟩
  · intro i hi
    have hwpos : 0 < taskWidth n t := taskWidth_pos n t ht (by omega)
    set w := taskWidth n t with hw
    refine ⟨i / w, ⟨?_, ?_, ?_, hi⟩, ?_⟩
    · have hcov : n ≤ t * w := le_mul_taskWidth n t ht
      have h1 : i / w * w ≤ i := Nat.div_mul_le_self i w
      have h2 : i / w * w < t * w := by
        calc i / w * w ≤ i := h1
        _ < n := hi
        _ ≤ t * w := hcov
      exact lt_of_mul_lt_mul_right h2 (Nat.zero_le w)
    · exact Nat.div_mul_le_self i w
    · have h4 := lt_div_succ_mul i w hwpos
      have hsucc : (i / w + 1) * w = i / w * w + w := Nat.succ_mul _ _
      unfold threadStartId
      rw [← hw]
      omega
    · rintro y ⟨-, hy1, hy2, -⟩
      unfold threadStartId at hy1 hy2
      rw [← hw] at hy1 hy2
      have : i / w = y := Nat.div_eq_of_lt_le hy1 (by rw [Nat.succ_mul]; omega)
      omega
  · rintro k hk i ⟨h1, h2, h3⟩
    unfold threadStartId at h1
    by_cases hn : n = 0
    · omega
    · have hwpos : 0 < taskWidth n t := taskWidth_pos n t ht (by omega)
      have : n * 1 ≤ k * taskWidth n t := Nat.mul_le_mul hk hwpos
      omega
  · intro noise3 prm a b env ws k pts i hno
    rw [threadTask_apply]
    unfold taskOwns at hno
    rw [if_neg hno]

/-- Witness for C3 at the spec's concrete partition test: 100 vertices
and 16 tasks. -/
theorem C3_partition_witness :
    (1 : ℕ) ≤ 16 ∧
      ((∀ i, i < 100 → ∃! k, k < 16 ∧ taskOwns 100 16 k i) ∧
        (∀ k, 100 ≤ k → ∀ i, ¬ taskOwns 100 16 k i) ∧
        (∀ (noise3 : ℚ → ℚ → ℚ → ℚ) (prm : NoiseParams) (a b : Mat4) (env : ℚ)
          (ws : ℕ → ℚ) (k : ℕ) (pts : ℕ → MPoint) (i : ℕ),
          ¬ taskOwns 100 16 k i →
            threadTask noise3 prm a b env ws (taskWidth 100 16)
              (threadStartId 100 16 k) 100 pts i = pts i)) :=
  ⟨by norm_num, C3_partition 100 16 (by norm_num)⟩

/-- C4: task-count invariance: for any two task counts `t1, t2 >= 1`
and identical vertex buffer, weight buffer, parameters and frame
matrices, the multi-threaded deform produces exactly the same status and
position buffer (in this exact-arithmetic model, exact equality, which
subsumes the spec's float tolerance): the per-vertex result depends only
on that vertex's own position and weight plus shared read-only
parameters. -/
theorem C4_taskcount_invariance (noise3 : ℚ → ℚ → ℚ → ℚ) (prm : NoiseParams)
    (env : ℚ) (l2w locW : Mat4) (n : ℕ) (pts : ℕ → MPoint) (ws : ℕ → ℚ)
    (t1 t2 : ℕ) (h1 : 1 ≤ t1) (h2 : 1 ≤ t2) :
    mtDeform noise3 prm env t1 l2w locW n pts ws =
      mtDeform noise3 prm env t2 l2w locW n pts ws := by
  by_cases henv : EPSILON ≥ env
  · unfold mtDeform
    rw [if_pos henv, if_pos henv]
  · have henv' : EPSILON < env := lt_of_not_le henv
    apply Prod.ext
    · rw [mtDeform_fst, mtDeform_fst]
    · funext j
      rw [mtDeform_apply noise3 prm env t1 l2w locW n pts ws henv' h1 j,
        mtDeform_apply noise3 prm env t2 l2w locW n pts ws henv' h2 j]

/-- Witness for C4 at a concrete input: 3 vertices deformed with 2 tasks
and with 16 tasks (more tasks than vertices) give the same buffer. -/
theorem C4_taskcount_invariance_witness :
    (1 : ℕ) ≤ 2 ∧ (1 : ℕ) ≤ 16 ∧
      mtDeform (fun _ _ _ => 1) defaultParams 1 2 1 1 3
          (fun i => ⟨i, 0, 0, 1⟩) (fun _ => 1) =
        mtDeform (fun _ _ _ => 1) defaultParams 1 16 1 1 3
          (fun i => ⟨i, 0, 0, 1⟩) (fun _ => 1) :=
  ⟨by norm_num, by norm_num,
   C4_taskcount_invariance (fun _ _ _ => 1) defaultParams 1 1 1 3
     (fun i => ⟨i, 0, 0, 1⟩) (fun _ => 1) 2 16 (by norm_num) (by norm_num)⟩

/-- C5 (amended): the single-threaded deform and the multi-threaded
deform with task count 1 agree whenever both frame matrices are
invertible and every per-vertex weight is either exactly 0 or above
EPSILON = 1e-7.  (As the counterexample shows, they genuinely differ for
weights in `(0, 1e-7]`: the single-threaded loop skips such vertices
while `threadTask` has no per-vertex weight check and displaces them by
the small nonzero amount.) -/
theorem C5_st_eq_mt_one (noise3 : ℚ → ℚ → ℚ → ℚ) (prm : NoiseParams)
    (env : ℚ) (l2w locW : Mat4) (n : ℕ) (pts : ℕ → MPoint) (ws : ℕ → ℚ)
    (hl : l2w.det ≠ 0) (hloc : locW.det ≠ 0)
    (hws : ∀ i, ws i = 0 ∨ EPSILON < ws i) :
    stDeform noise3 prm env l2w locW n pts ws =
      mtDeform noise3 prm env 1 l2w locW n pts ws := by
  by_cases henv : EPSILON ≥ env
  · unfold stDeform mtDeform
    rw [if_pos henv, if_pos henv]
  · have henv' : EPSILON < env := lt_of_not_le henv
    apply Prod.ext
    · rw [stDeform_fst, mtDeform_fst]
    · funext j
      rw [stDeform_apply noise3 prm env l2w locW n pts ws henv' j,
        mtDeform_apply noise3 prm env 1 l2w locW n pts ws henv' (le_refl 1) j]
      by_cases hj : j < n
      · rcases hws j with h0 | hpos
        · rw [if_neg, if_pos hj, h0, mul_zero, mtDisplace_zero]
          · exact frameMats_mul l2w locW hl hloc
          · rintro ⟨-, habs⟩
            rw [h0] at habs
            exact absurd habs (by norm_num [EPSILON])
        · rw [if_pos ⟨hj, hpos⟩, if_pos hj]
          exact stDisplace_eq_mtDisplace noise3 prm _ _ (env * ws j) (pts j)
      · rw [if_neg (fun h => hj h.1), if_neg hj]

/-- Witness for C5 at a concrete input: identity frame matrices
(determinant 1) and a single vertex of weight 1. -/
theorem C5_st_eq_mt_one_witness :
    (1 : Mat4).det ≠ 0 ∧ (1 : Mat4).det ≠ 0 ∧
      (∀ i : ℕ, (fun _ : ℕ => (1 : ℚ)) i = 0 ∨
        EPSILON < (fun _ : ℕ => (1 : ℚ)) i) ∧
      stDeform (fun _ _ _ => 1) defaultParams 1 1 1 1
          (fun _ => ⟨1, 0, 0, 1⟩) (fun _ => 1) =
        mtDeform (fun _ _ _ => 1) defaultParams 1 1 1 1 1
          (fun _ => ⟨1, 0, 0, 1⟩) (fun _ => 1) :=
  ⟨by simp, by simp,
   fun i => Or.inr (by norm_num [EPSILON]),
   C5_st_eq_mt_one (fun _ _ _ => 1) defaultParams 1 1 1 1
     (fun _ => ⟨1, 0, 0, 1⟩) (fun _ => 1) (by simp) (by simp)
     (fun i => Or.inr (by norm_num [EPSILON]))⟩

/-- Counterexample to C5 as stated: with identical inputs whose single
vertex has the tiny nonzero weight 1e-8, the single-threaded deform
leaves the vertex exactly at `(1,0,0,1)` (its weight check
`EPSILON >= weight` skips it) while the multi-threaded deform with task
count 1 displaces it (threadTask has no weight check), so the two
variants do not compute the same function. -/
theorem C5_counterexample :
    (stDeform (fun _ _ _ => 1) defaultParams 1 1 1 1
        (fun _ => ⟨1, 0, 0, 1⟩) (fun _ => 1 / 100000000)).2 0 ≠
      (mtDeform (fun _ _ _ => 1) defaultParams 1 1 1 1 1
        (fun _ => ⟨1, 0, 0, 1⟩) (fun _ => 1 / 100000000)).2 0 := by
  rw [stDeform_apply _ _ _ _ _ _ _ _ (by norm_num [EPSILON]) 0,
    mtDeform_apply _ _ _ _ _ _ _ _ _ (by norm_num [EPSILON]) (le_refl 1) 0,
    if_neg (fun h => absurd h.2 (by norm_num [EPSILON])),
    if_pos (by norm_num)]
  have ha : mtLocalToLocatorSpaceMat 1 1 = 1 := by
    unfold mtLocalToLocatorSpaceMat
    rw [Mat4.inverse_one, mul_one]
  have hb : mtLocatorToLocalSpaceMat 1 1 = 1 := by
    unfold mtLocatorToLocalSpaceMat
    rw [Mat4.inverse_one, mul_one]
  rw [ha, hb]
  simp [mtDisplace, MPoint.mulMat_one, defaultParams, fbm_noise3, fbmAux,
    MPoint.mk.injEq]

/-- C1: every vertex that is actually displaced by the single-threaded
deform goes through exactly the spec's pipeline: transform into
noise/locator space by `localToWorld * inverse(locatorWorld)`, per-axis
noise coordinates `freq[i] * p[i] - offset[i]`, three fBm evaluations at
the base coordinates and at the `+123/+456/+789` and `+234/+567/+890`
decorrelation offsets, per-axis displacement by
`amp[i] * fbm * (envelope * weight)`, and the transform back by
`locatorWorld * inverse(localToWorld)`; and in particular, with identity
frame matrices, weight 1, envelope 1, the default parameters
(amplitude and frequency all 1, offset 0, octaves 1) the input vertex
`(1,0,0)` maps to
`(1 + noise3(1,0,0), noise3(124,456,789), noise3(235,567,890))`. -/
theorem C1_displacement_pipeline (noise3 : ℚ → ℚ → ℚ → ℚ)
    (prm : NoiseParams) (env : ℚ) (l2w locW : Mat4) (n : ℕ)
    (pts : ℕ → MPoint) (ws : ℕ → ℚ) (j : ℕ) (henv : EPSILON < env)
    (hj : j < n) (hw : EPSILON < ws j) :
    ((stDeform noise3 prm env l2w locW n pts ws).2 j =
      (let a := l2w * Mat4.inverse locW
       let b := locW * Mat4.inverse l2w
       let p1 := (pts j).mulMat a
       let m0 := prm.freq0 * p1.x - prm.off0
       let m1 := prm.freq1 * p1.y - prm.off1
       let m2 := prm.freq2 * p1.z - prm.off2
       MPoint.mulMat
         ⟨p1.x + prm.amp0 * fbm_noise3 noise3 m0 m1 m2 prm.octaves
             prm.persistence prm.lacunarity * (env * ws j),
          p1.y + prm.amp1 * fbm_noise3 noise3 (m0 + 123) (m1 + 456) (m2 + 789)
             prm.octaves prm.persistence prm.lacunarity * (env * ws j),
          p1.z + prm.amp2 * fbm_noise3 noise3 (m0 + 234) (m1 + 567) (m2 + 890)
             prm.octaves prm.persistence prm.lacunarity * (env * ws j),
          p1.w⟩ b)) ∧
      (stDeform noise3 defaultParams 1 1 1 1 (fun _ => ⟨1, 0, 0, 1⟩)
          (fun _ => 1)).2 0 =
        ⟨1 + noise3 1 0 0, noise3 124 456 789, noise3 235 567 890, 1⟩ := by
  constructor
  · rw [stDeform_apply noise3 prm env l2w locW n pts ws henv j,
      if_pos ⟨hj, hw⟩]
    rfl
  · rw [stDeform_apply noise3 defaultParams 1 1 1 1 (fun _ => ⟨1, 0, 0, 1⟩)
        (fun _ => 1) (by norm_num [EPSILON]) 0,
      if_pos ⟨by norm_num, by norm_num [EPSILON]⟩]
    have ha : stLocalToLocatorSpaceMat 1 1 = 1 := by
      unfold stLocalToLocatorSpaceMat
      rw [Mat4.inverse_one, mul_one]
    have hb : stLocatorToLocalSpaceMat 1 1 = 1 := by
      unfold stLocatorToLocalSpaceMat
      rw [Mat4.inverse_one, mul_one]
    rw [ha, hb]
    simp only [stDisplace, MPoint.mulMat_one, defaultParams, fbm_noise3, fbmAux]
    norm_num

/-- Witness for C1 at a concrete input: a single vertex at `(2,0,0,1)` of
weight 1, envelope 1, default parameters, identity matrices, with the
constant-1 noise kernel. -/
theorem C1_displacement_pipeline_witness :
    EPSILON < (1 : ℚ) ∧ (0 : ℕ) < 1 ∧ EPSILON < (fun _ : ℕ => (1 : ℚ)) 0 ∧
      (((stDeform (fun _ _ _ => 1) defaultParams 1 1 1 1
            (fun _ => ⟨2, 0, 0, 1⟩) (fun _ => 1)).2 0 =
        (let a := (1 : Mat4) * Mat4.inverse 1
         let b := (1 : Mat4) * Mat4.inverse 1
         let p1 := MPoint.mulMat ⟨2, 0, 0, 1⟩ a
         let m0 := defaultParams.freq0 * p1.x - defaultParams.off0
         let m1 := defaultParams.freq1 * p1.y - defaultParams.off1
         let m2 := defaultParams.freq2 * p1.z - defaultParams.off2
         MPoint.mulMat
           ⟨p1.x + defaultParams.amp0 * fbm_noise3 (fun _ _ _ => 1) m0 m1 m2
               defaultParams.octaves defaultParams.persistence
               defaultParams.lacunarity * (1 * 1),
            p1.y + defaultParams.amp1 * fbm_noise3 (fun _ _ _ => 1) (m0 + 123)
               (m1 + 456) (m2 + 789) defaultParams.octaves
               defaultParams.persistence defaultParams.lacunarity * (1 * 1),
            p1.z + defaultParams.amp2 * fbm_noise3 (fun _ _ _ => 1) (m0 + 234)
               (m1 + 567) (m2 + 890) defaultParams.octaves
               defaultParams.persistence defaultParams.lacunarity * (1 * 1),
            p1.w⟩ b)) ∧
      (stDeform (fun _ _ _ => 1) defaultParams 1 1 1 1
          (fun _ => ⟨1, 0, 0, 1⟩) (fun _ => 1)).2 0 =
        ⟨1 + (fun _ _ _ => (1 : ℚ)) 1 0 0, (fun _ _ _ => (1 : ℚ)) 124 456 789,
          (fun _ _ _ => (1 : ℚ)) 235 567 890, 1⟩) :=
  ⟨by norm_num [EPSILON], by norm_num, by norm_num [EPSILON],
   C1_displacement_pipeline (fun _ _ _ => 1) defaultParams 1 1 1 1
     (fun _ => ⟨2, 0, 0, 1⟩) (fun _ => 1) 0 (by norm_num [EPSILON])
     (by norm_num) (by norm_num [EPSILON])⟩

/-- C2 (amended): the per-vertex early-exit is NOT determined by the
product `envelope * weight`.  In the single-threaded variant, once the
global check `EPSILON >= env` has passed, a vertex is skipped
(bit-for-bit unchanged) precisely when its weight alone satisfies
`weight <= EPSILON`, and is otherwise displaced; in the multi-threaded
variant there is no per-vertex early-exit at all: every vertex is run
through the displacement pipeline, with the displacement scaled by
`env * weight`.  (The counterexample shows the claim's product test
fails on the code: `env = weight = 1e-4` gives `env * weight = 1e-8 <
1e-7` yet the vertex moves.) -/
theorem C2_weight_early_exit (noise3 : ℚ → ℚ → ℚ → ℚ) (prm : NoiseParams)
    (env : ℚ) (numTasks : ℕ) (l2w locW : Mat4) (n : ℕ) (pts : ℕ → MPoint)
    (ws : ℕ → ℚ) (j : ℕ) (henv : EPSILON < env) (ht : 1 ≤ numTasks)
    (hj : j < n) :
    (ws j ≤ EPSILON →
      (stDeform noise3 prm env l2w locW n pts ws).2 j = pts j) ∧
      (EPSILON < ws j →
        (stDeform noise3 prm env l2w locW n pts ws).2 j =
          stDisplace noise3 prm (stLocalToLocatorSpaceMat l2w locW)
            (stLocatorToLocalSpaceMat l2w locW) (env * ws j) (pts j)) ∧
      (mtDeform noise3 prm env numTasks l2w locW n pts ws).2 j =
        mtDisplace noise3 prm (mtLocalToLocatorSpaceMat l2w locW)
          (mtLocatorToLocalSpaceMat l2w locW) (env * ws j) (pts j) := by
  refine ⟨?_, ?_, ?_⟩
  · intro hwle
    rw [stDeform_apply noise3 prm env l2w locW n pts ws henv j,
      if_neg (fun h => absurd h.2 (not_lt.mpr hwle))]
  · intro hwgt
    rw [stDeform_apply noise3 prm env l2w locW n pts ws henv j,
      if_pos ⟨hj, hwgt⟩]
  · rw [mtDeform_apply noise3 prm env numTasks l2w locW n pts ws henv ht j,
      if_pos hj]

/-- Witness for C2 (amended) at a concrete input: one vertex of weight
1e-8 (skipped by the single-threaded variant, displaced by the
multi-threaded one). -/
theorem C2_weight_early_exit_witness :
    EPSILON < (1 : ℚ) ∧ (1 : ℕ) ≤ 1 ∧ (0 : ℕ) < 1 ∧
      (((fun _ : ℕ => (1 : ℚ) / 100000000) 0 ≤ EPSILON →
        (stDeform (fun _ _ _ => 1) defaultParams 1 1 1 1
            (fun _ => ⟨1, 0, 0, 1⟩) (fun _ => 1 / 100000000)).2 0 =
          (fun _ : ℕ => (⟨1, 0, 0, 1⟩ : MPoint)) 0) ∧
      (EPSILON < (fun _ : ℕ => (1 : ℚ) / 100000000) 0 →
        (stDeform (fun _ _ _ => 1) defaultParams 1 1 1 1
            (fun _ => ⟨1, 0, 0, 1⟩) (fun _ => 1 / 100000000)).2 0 =
          stDisplace (fun _ _ _ => 1) defaultParams
            (stLocalToLocatorSpaceMat 1 1) (stLocatorToLocalSpaceMat 1 1)
            (1 * (1 / 100000000)) ⟨1, 0, 0, 1⟩) ∧
      (mtDeform (fun _ _ _ => 1) defaultParams 1 1 1 1 1
          (fun _ => ⟨1, 0, 0, 1⟩) (fun _ => 1 / 100000000)).2 0 =
        mtDisplace (fun _ _ _ => 1) defaultParams
          (mtLocalToLocatorSpaceMat 1 1) (mtLocatorToLocalSpaceMat 1 1)
          (1 * (1 / 100000000)) ⟨1, 0, 0, 1⟩) :=
  ⟨by norm_num [EPSILON], le_refl 1, by norm_num,
   C2_weight_early_exit (fun _ _ _ => 1) defaultParams 1 1 1 1 1
     (fun _ => ⟨1, 0, 0, 1⟩) (fun _ => 1 / 100000000) 0
     (by norm_num [EPSILON]) (le_refl 1) (by norm_num)⟩

/-- Counterexample to C2 as stated: `env = weight = 1e-4`, so
`env * weight = 1e-8 < 1e-7`, yet the single-threaded deform moves the
vertex `(1,0,0,1)` (both individual checks `EPSILON >= env` and
`EPSILON >= weight` pass it through to the displacement pipeline), so a
vertex with `envelope * weight < 1e-7` is not left unchanged. -/
theorem C2_counterexample :
    (1 : ℚ) / 10000 * (1 / 10000) < EPSILON ∧
      (stDeform (fun _ _ _ => 1) defaultParams (1 / 10000) 1 1 1
        (fun _ => ⟨1, 0, 0, 1⟩) (fun _ => 1 / 10000)).2 0 ≠ ⟨1, 0, 0, 1⟩ := by
  constructor
  · norm_num [EPSILON]
  · rw [stDeform_apply _ _ _ _ _ _ _ _ (by norm_num [EPSILON]) 0,
      if_pos ⟨by norm_num, by norm_num [EPSILON]⟩]
    have ha : stLocalToLocatorSpaceMat 1 1 = 1 := by
      unfold stLocalToLocatorSpaceMat
      rw [Mat4.inverse_one, mul_one]
    have hb : stLocatorToLocalSpaceMat 1 1 = 1 := by
      unfold stLocatorToLocalSpaceMat
      rw [Mat4.inverse_one, mul_one]
    rw [ha, hb]
    simp [stDisplace, MPoint.mulMat_one, defaultParams, fbm_noise3, fbmAux,
      MPoint.mk.injEq]
